import Mathlib

/-!
# URL store (`internal/storage/sqlite/sqlite.go`)

A shallow embedding of the SQLite-backed URL store and of the four SQL
statements it issues against the table

    CREATE TABLE IF NOT EXISTS url(
      id INTEGER PRIMARY KEY,
      alias TEXT NOT NULL UNIQUE,
      url TEXT NOT NULL);

The table is a list of rows.  Each Go method is a function from the store
(and its arguments) to the Go results, together with the new store when the
statement writes.  The engine is modelled while it is healthy: statements
prepare and no I/O failure occurs, so the only engine errors are the ones the
statements themselves can raise (a UNIQUE violation, `sql.ErrNoRows`, rowid
exhaustion).
-/

namespace UrlShortener

/-! ## Go errors -/

/-- Go `error` values met in this package. -/
inductive GoError where
  /-- A package-level `errors.New` value, identified by the variable holding it. -/
  | sentinel (name : String)
  /-- A `sqlite3.Error` with its primary and extended result code. -/
  | sqlite3Error (code : Nat) (extendedCode : Nat)
  /-- The value `fmt.Errorf(text + "%w", inner)`: it unwraps to `inner`. -/
  | wrapf (text : String) (inner : GoError)
  /-- The value `fmt.Errorf(text)` without `%w`: it unwraps to nothing. -/
  | errorf (text : String)
  deriving DecidableEq, Repr

/-- Go `errors.Is(err, target)` for a non-nil `err` and a sentinel target: walk
the `Unwrap` chain and compare each link with the target. -/
def errorsIs : GoError → GoError → Bool
  | .wrapf _ inner, target => errorsIs inner target
  | e, target => decide (e = target)

/-- Go `errors.Is(err, target)` where `err` may be `nil`. -/
def errorsIsOpt (err : Option GoError) (target : GoError) : Bool :=
  match err with
  | none => false
  | some e => errorsIs e target

/-- The sentinel `sql.ErrNoRows` of `database/sql`. -/
def sqlErrNoRows : GoError := .sentinel "sql.ErrNoRows"

/-- Modelled from the spec: the sentinel `storage.ERR_URL_EXISTS` is declared in
package `ex.com/internal/storage`, which is not among the sources; it is the
spec's `AliasExistsError`, a kind of its own in the error taxonomy. -/
def ERR_URL_EXISTS : GoError := .sentinel "storage.ERR_URL_EXISTS"

/-- Modelled from the spec: the sentinel `storage.ERR_URL_NOT_FOUND` is declared
in package `ex.com/internal/storage`, which is not among the sources; it is the
spec's `NotFoundError`, a kind of its own in the error taxonomy. -/
def ERR_URL_NOT_FOUND : GoError := .sentinel "storage.ERR_URL_NOT_FOUND"

/-- Primary result code `sqlite3.ErrConstraint` (SQLITE_CONSTRAINT). -/
def ErrConstraint : Nat := 19

/-- Extended result code `sqlite3.ErrConstraintUnique` (SQLITE_CONSTRAINT_UNIQUE,
`19 | 8 << 8`). -/
def ErrConstraintUnique : Nat := 2067

/-- Primary result code `sqlite3.ErrFull` (SQLITE_FULL). -/
def ErrFull : Nat := 13

/-! ## The table `url` -/

/-- One row of table `url`.  The column `alias` is the field `alias_`, the bare
word being reserved. -/
structure Row where
  id : Int
  alias_ : String
  url : String
  deriving DecidableEq, Repr

/-- The store: `Storage{db}`, where the database holds the single table `url`,
kept as the list of its rows in scan order. -/
structure Storage where
  db : List Row
  deriving DecidableEq, Repr

/-- Largest rowid SQLite can assign: `2^63 - 1`. -/
def MAX_ROWID : Int := 9223372036854775807

/-- Largest `id` in the table, `none` for the empty table. -/
def maxRowid : List Row → Option Int
  | [] => none
  | r :: rs => some (rs.foldl (fun m x => max m x.id) r.id)

/-- The statement `INSERT INTO url(url, alias) VALUES(?, ?)` bound to two Go strings.

* `NOT NULL`: a Go string is bound as TEXT, the empty string as the empty
  TEXT, never as NULL, so the check always passes.
* `UNIQUE` on `alias` (BINARY collation): a row with the same alias raises
  SQLITE_CONSTRAINT_UNIQUE and nothing is written.
* `id INTEGER PRIMARY KEY` without AUTOINCREMENT is the rowid: the new row gets
  one more than the largest rowid now in the table, and 1 in an empty table.
  When the largest rowid is `MAX_ROWID` the engine tries random candidates and
  may give up with SQLITE_FULL; the model takes that outcome.

Returns the new table and either the error or `LastInsertId`. -/
def execInsert (rows : List Row) (url alias_ : String) : List Row × Except GoError Int :=
  if rows.any (fun r => r.alias_ == alias_) then
    (rows, .error (.sqlite3Error ErrConstraint ErrConstraintUnique))
  else
    match maxRowid rows with
    | none => (rows ++ [⟨1, alias_, url⟩], .ok 1)
    | some m =>
      if m = MAX_ROWID then (rows, .error (.sqlite3Error ErrFull ErrFull))
      else (rows ++ [⟨m + 1, alias_, url⟩], .ok (m + 1))

/-- The statement `SELECT url FROM url WHERE alias = ?` run through
`QueryRow(alias).Scan(&resURL)`: the url of the first row whose alias is the
argument byte for byte, `sql.ErrNoRows` when there is none. -/
def queryRowUrl (rows : List Row) (alias_ : String) : Except GoError String :=
  match rows.find? (fun r => r.alias_ == alias_) with
  | some r => .ok r.url
  | none => .error sqlErrNoRows

/-- The statement `DELETE FROM url WHERE alias = ?` run through `Exec`: every
row with that alias is removed.  `Exec` reports the number of rows affected in
its result and returns a nil error whether or not a row matched. -/
def execDelete (rows : List Row) (alias_ : String) : List Row × Nat × Option GoError :=
  (rows.filter (fun r => !(r.alias_ == alias_)),
   (rows.filter (fun r => r.alias_ == alias_)).length,
   none)

/-- The statement `SELECT id, url, alias FROM url`: all rows. -/
def queryAll (rows : List Row) : List Row := rows

/-! ## The methods of `Storage` -/

/-- `New(storagePath)` on a fresh path: the table is created empty. -/
def New : Storage := ⟨[]⟩

/-- `(*Storage).SaveUrl`: the new store, the returned id and the returned error.
`Prepare` succeeds on the initialised schema and the driver's `LastInsertId`
never fails, so those two error returns are left out. -/
def SaveUrl (s : Storage) (urlToSave alias_ : String) : Storage × Int × Option GoError :=
  let op := "storage.sqlite.SaveUrl"
  match execInsert s.db urlToSave alias_ with
  | (rows, .error err) =>
    match err with
    | .sqlite3Error _ ext =>
      if ext = ErrConstraintUnique then (⟨rows⟩, 0, some (.wrapf (op ++ ": ") ERR_URL_EXISTS))
      else (⟨rows⟩, 0, some (.wrapf (op ++ ": ") err))
    | _ => (⟨rows⟩, 0, some (.wrapf (op ++ ": ") err))
  | (rows, .ok id) => (⟨rows⟩, id, none)

/-- `(*Storage).GetUrlByAlias`: the returned url and the returned error.  On
failure the url is the one-space string the code returns. -/
def GetUrlByAlias (s : Storage) (alias_ : String) : String × Option GoError :=
  let op := "storage.sqlite.GetUrlByAlias"
  match queryRowUrl s.db alias_ with
  | .error err =>
    if errorsIs err sqlErrNoRows then (" ", some ERR_URL_NOT_FOUND)
    else (" ", some (.wrapf (op ++ ": ") err))
  | .ok resURL => (resURL, none)

/-- `(*Storage).DeleteUrl`: the new store and the returned error.  The result of
`Exec`, which holds the number of rows affected, is discarded as in the code;
only its error is looked at. -/
def DeleteUrl (s : Storage) (alias_ : String) : Storage × Option GoError :=
  let op := "storage.sqlite.DeleteUrl"
  match execDelete s.db alias_ with
  | (rows, _, err) =>
    if errorsIsOpt err sqlErrNoRows then (⟨rows⟩, some ERR_URL_NOT_FOUND)
    else
      match err with
      | some e => (⟨rows⟩, some (.wrapf (op ++ ", ") e))
      | none => (⟨rows⟩, none)

/-- Go `fmt.Sprintf("{id: %d, url: %s, alias: %s}, ", id, url, alias)`. -/
def sprintfRow (id : Int) (url alias_ : String) : String :=
  "\x7bid: " ++ toString id ++ ", url: " ++ url ++ ", alias: " ++ alias_ ++ "\x7d, "

/-- `(*Storage).GetAll`: the returned string and the returned error.  The loop
over `rows.Next()` appends one formatted entry per row to `result`. -/
def GetAll (s : Storage) : String × Option GoError :=
  ((queryAll s.db).foldl (fun result r => result ++ sprintfRow r.id r.url r.alias_) "", none)

/-! ## Sequences of calls -/

/-- A call of one of the four methods. -/
inductive Op where
  | saveUrl (url alias_ : String)
  | getUrlByAlias (alias_ : String)
  | deleteUrl (alias_ : String)
  | getAll
  deriving DecidableEq, Repr

/-- What a call returned. -/
inductive Ret where
  | saveUrl (id : Int) (err : Option GoError)
  | getUrlByAlias (url : String) (err : Option GoError)
  | deleteUrl (err : Option GoError)
  | getAll (result : String) (err : Option GoError)
  deriving DecidableEq, Repr

/-- One call: the store after it and what it returned. -/
def step (s : Storage) : Op → Storage × Ret
  | .saveUrl url alias_ =>
    let r := SaveUrl s url alias_
    (r.1, .saveUrl r.2.1 r.2.2)
  | .getUrlByAlias alias_ =>
    let r := GetUrlByAlias s alias_
    (s, .getUrlByAlias r.1 r.2)
  | .deleteUrl alias_ =>
    let r := DeleteUrl s alias_
    (r.1, .deleteUrl r.2)
  | .getAll =>
    let r := GetAll s
    (s, .getAll r.1 r.2)

/-- A sequence of calls: the final store and what each call returned. -/
def run (s : Storage) : List Op → Storage × List Ret
  | [] => (s, [])
  | o :: os =>
    let r := step s o
    let rest := run r.1 os
    (rest.1, r.2 :: rest.2)

/-- A sequence of `SaveUrl` calls, one per `(url, alias)` pair: the final store
and the `(id, error)` each call returned. -/
def saveAll (s : Storage) : List (String × String) → Storage × List (Int × Option GoError)
  | [] => (s, [])
  | (url, alias_) :: rest =>
    let r := SaveUrl s url alias_
    let t := saveAll r.1 rest
    (t.1, r.2 :: t.2)

/-- The schema constraint `alias ... UNIQUE`: no two rows share an alias. -/
def AliasUnique (s : Storage) : Prop := (s.db.map Row.alias_).Nodup

/-- The table has room for one more automatic rowid: its largest id is below
`MAX_ROWID`. -/
def BelowCeiling (s : Storage) : Prop := ∀ r ∈ s.db, r.id < MAX_ROWID

/-- The rows are listed by strictly increasing id. -/
def IdSorted (s : Storage) : Prop := s.db.Pairwise (fun x y => x.id < y.id)

instance (s : Storage) : Decidable (AliasUnique s) := by
  unfold AliasUnique; infer_instance

instance (s : Storage) : Decidable (BelowCeiling s) := by
  unfold BelowCeiling; infer_instance

/-! ## The engine statements -/

theorem any_alias_iff (rows : List Row) (a : String) :
    rows.any (fun r => r.alias_ == a) = true ↔ ∃ r ∈ rows, r.alias_ = a := by
  simp [List.any_eq_true]

theorem foldl_max_ge (rs : List Row) (m : Int) :
    m ≤ rs.foldl (fun m x => max m x.id) m ∧
      ∀ r ∈ rs, r.id ≤ rs.foldl (fun m x => max m x.id) m := by
  induction rs generalizing m with
  | nil => simp
  | cons x xs ih =>
    simp only [List.foldl_cons, List.mem_cons, forall_eq_or_imp]
    obtain ⟨h1, h2⟩ := ih (max m x.id)
    exact ⟨le_trans (le_max_left _ _) h1, le_trans (le_max_right _ _) h1, h2⟩

theorem foldl_max_mem (rs : List Row) (m : Int) :
    rs.foldl (fun m x => max m x.id) m = m ∨
      ∃ r ∈ rs, r.id = rs.foldl (fun m x => max m x.id) m := by
  induction rs generalizing m with
  | nil => simp
  | cons x xs ih =>
    simp only [List.foldl_cons, List.mem_cons, exists_eq_or_imp]
    rcases ih (max m x.id) with h | ⟨r, hr, h⟩
    · rw [h]
      rcases max_choice m x.id with hm | hm
      · exact Or.inl hm
      · exact Or.inr (Or.inl hm.symm)
    · exact Or.inr (Or.inr ⟨r, hr, h⟩)

theorem maxRowid_ge {rows : List Row} {m : Int} (h : maxRowid rows = some m) :
    ∀ r ∈ rows, r.id ≤ m := by
  cases rows with
  | nil => simp
  | cons x xs =>
    simp only [maxRowid, Option.some.injEq] at h
    subst h
    intro r hr
    rcases List.mem_cons.mp hr with rfl | hr
    · exact (foldl_max_ge xs _).1
    · exact (foldl_max_ge xs _).2 r hr

theorem maxRowid_mem {rows : List Row} {m : Int} (h : maxRowid rows = some m) :
    ∃ r ∈ rows, r.id = m := by
  cases rows with
  | nil => simp [maxRowid] at h
  | cons x xs =>
    simp only [maxRowid, Option.some.injEq] at h
    subst h
    rcases foldl_max_mem xs x.id with h | ⟨r, hr, h⟩
    · exact ⟨x, List.mem_cons_self _ _, h.symm⟩
    · exact ⟨r, List.mem_cons_of_mem _ hr, h⟩

/-- A stored alias makes the INSERT fail with the UNIQUE violation and write nothing. -/
theorem execInsert_dup {rows : List Row} {a : String} (h : ∃ r ∈ rows, r.alias_ = a)
    (u : String) :
    execInsert rows u a = (rows, .error (.sqlite3Error ErrConstraint ErrConstraintUnique)) := by
  unfold execInsert
  rw [if_pos ((any_alias_iff rows a).mpr h)]

/-- A fresh alias below the ceiling is inserted at the end under an id above all others. -/
theorem execInsert_fresh {rows : List Row} {a : String} (h : ∀ r ∈ rows, r.alias_ ≠ a)
    (hroom : ∀ r ∈ rows, r.id < MAX_ROWID) (u : String) :
    ∃ id : Int, execInsert rows u a = (rows ++ [⟨id, a, u⟩], .ok id) ∧
      (∀ r ∈ rows, r.id < id) ∧ ((rows = [] ∧ id = 1) ∨ ∃ r ∈ rows, id = r.id + 1) := by
  have hany : ¬ rows.any (fun r => r.alias_ == a) = true := by
    rw [any_alias_iff]
    rintro ⟨r, hr, e⟩
    exact h r hr e
  unfold execInsert
  rw [if_neg hany]
  cases hm : maxRowid rows with
  | none =>
    cases rows with
    | nil => exact ⟨1, rfl, by simp, Or.inl ⟨rfl, rfl⟩⟩
    | cons x xs => simp [maxRowid] at hm
  | some m =>
    obtain ⟨r, hr, e⟩ := maxRowid_mem hm
    have hne : m ≠ MAX_ROWID := by
      have := hroom r hr
      omega
    refine ⟨m + 1, ?_, ?_, Or.inr ⟨r, hr, by rw [e]⟩⟩
    · simp only [if_neg hne]
    · intro r hr
      have := maxRowid_ge hm r hr
      omega

/-- Whatever the INSERT returns, an ok result is an id above every stored id and
the table grew by exactly that row; an error leaves the table as it was. -/
theorem execInsert_cases (rows : List Row) (u a : String) :
    (∃ e, execInsert rows u a = (rows, .error e) ∧
        ((∃ r ∈ rows, r.alias_ = a) ∨ ∃ r ∈ rows, r.id = MAX_ROWID)) ∨
      (∃ id : Int, execInsert rows u a = (rows ++ [⟨id, a, u⟩], .ok id) ∧
        (∀ r ∈ rows, r.alias_ ≠ a) ∧ (∀ r ∈ rows, r.id < id) ∧
        ((rows = [] ∧ id = 1) ∨ ∃ r ∈ rows, id = r.id + 1)) := by
  by_cases h : ∃ r ∈ rows, r.alias_ = a
  · exact Or.inl ⟨_, execInsert_dup h u, Or.inl h⟩
  · have hfresh : ∀ r ∈ rows, r.alias_ ≠ a := fun r hr e => h ⟨r, hr, e⟩
    have hany : ¬ rows.any (fun r => r.alias_ == a) = true := by
      rw [any_alias_iff]; exact h
    cases hm : maxRowid rows with
    | none =>
      cases rows with
      | nil =>
        exact Or.inr ⟨1, rfl, hfresh, by simp, Or.inl ⟨rfl, rfl⟩⟩
      | cons x xs => simp [maxRowid] at hm
    | some m =>
      by_cases hne : m = MAX_ROWID
      · left
        refine ⟨.sqlite3Error ErrFull ErrFull, ?_, Or.inr ?_⟩
        · unfold execInsert
          rw [if_neg hany, hm]
          simp only [if_pos hne]
        · obtain ⟨r, hr, e⟩ := maxRowid_mem hm
          exact ⟨r, hr, e.trans hne⟩
      · right
        obtain ⟨r, hr, e⟩ := maxRowid_mem hm
        refine ⟨m + 1, ?_, hfresh, ?_, Or.inr ⟨r, hr, by rw [e]⟩⟩
        · unfold execInsert
          rw [if_neg hany, hm]
          simp only [if_neg hne]
        · intro r hr
          have := maxRowid_ge hm r hr
          omega

/-! ## The methods, case by case -/

theorem SaveUrl_of_insert_ok {s : Storage} {u a : String} {rows : List Row} {id : Int}
    (h : execInsert s.db u a = (rows, .ok id)) : SaveUrl s u a = (⟨rows⟩, id, none) := by
  simp only [SaveUrl, h]

theorem SaveUrl_dup {s : Storage} {a : String} (h : ∃ r ∈ s.db, r.alias_ = a) (u : String) :
    SaveUrl s u a = (s, 0, some (.wrapf "storage.sqlite.SaveUrl: " ERR_URL_EXISTS)) := by
  simp only [SaveUrl, execInsert_dup h u]
  rfl

theorem SaveUrl_fresh {s : Storage} {a : String} (h : ∀ r ∈ s.db, r.alias_ ≠ a)
    (hroom : ∀ r ∈ s.db, r.id < MAX_ROWID) (u : String) :
    ∃ id : Int, SaveUrl s u a = (⟨s.db ++ [⟨id, a, u⟩]⟩, id, none) ∧
      (∀ r ∈ s.db, r.id < id) ∧ ((s.db = [] ∧ id = 1) ∨ ∃ r ∈ s.db, id = r.id + 1) := by
  obtain ⟨id, h1, h2, h3⟩ := execInsert_fresh h hroom u
  exact ⟨id, SaveUrl_of_insert_ok h1, h2, h3⟩

/-- A call of `SaveUrl` either fails, returning id 0 and the store as it was, or
succeeds, appending one row with the given strings under an id above every
stored id. -/
theorem SaveUrl_cases (s : Storage) (u a : String) :
    (∃ e, SaveUrl s u a = (s, 0, some e) ∧
        ((∃ r ∈ s.db, r.alias_ = a) ∨ ∃ r ∈ s.db, r.id = MAX_ROWID)) ∨
      (∃ id : Int, SaveUrl s u a = (⟨s.db ++ [⟨id, a, u⟩]⟩, id, none) ∧
        (∀ r ∈ s.db, r.alias_ ≠ a) ∧ (∀ r ∈ s.db, r.id < id) ∧
        ((s.db = [] ∧ id = 1) ∨ ∃ r ∈ s.db, id = r.id + 1)) := by
  rcases execInsert_cases s.db u a with ⟨e, h, hwhy⟩ | ⟨id, h, h1, h2, h3⟩
  · left
    have hs : (⟨s.db⟩ : Storage) = s := rfl
    cases e with
    | sqlite3Error c ext =>
      by_cases hx : ext = ErrConstraintUnique
      · exact ⟨.wrapf "storage.sqlite.SaveUrl: " ERR_URL_EXISTS,
          by simp only [SaveUrl, h, if_pos hx, hs]; rfl, hwhy⟩
      · exact ⟨.wrapf "storage.sqlite.SaveUrl: " (.sqlite3Error c ext),
          by simp only [SaveUrl, h, if_neg hx, hs]; rfl, hwhy⟩
    | sentinel n =>
      exact ⟨.wrapf "storage.sqlite.SaveUrl: " (.sentinel n), by simp only [SaveUrl, h, hs]; rfl, hwhy⟩
    | wrapf t i =>
      exact ⟨.wrapf "storage.sqlite.SaveUrl: " (.wrapf t i), by simp only [SaveUrl, h, hs]; rfl, hwhy⟩
    | errorf t =>
      exact ⟨.wrapf "storage.sqlite.SaveUrl: " (.errorf t), by simp only [SaveUrl, h, hs]; rfl, hwhy⟩
  · right
    exact ⟨id, SaveUrl_of_insert_ok h, h1, h2, h3⟩

theorem find_alias_none {rows : List Row} {a : String} (h : ∀ r ∈ rows, r.alias_ ≠ a) :
    rows.find? (fun r => r.alias_ == a) = none := by
  rw [List.find?_eq_none]
  intro r hr
  simpa using h r hr

/-- With unique aliases the first row matching an alias is the only one. -/
theorem find_alias_of_mem {rows : List Row} (hu : (rows.map Row.alias_).Nodup) {r : Row}
    (hr : r ∈ rows) : rows.find? (fun x => x.alias_ == r.alias_) = some r := by
  induction rows with
  | nil => simp at hr
  | cons x xs ih =>
    rw [List.map_cons, List.nodup_cons] at hu
    rcases List.mem_cons.mp hr with rfl | hr
    · simp
    · have hne : x.alias_ ≠ r.alias_ := by
        intro e
        exact hu.1 (e ▸ List.mem_map_of_mem Row.alias_ hr)
      rw [List.find?_cons_of_neg _ (by simpa using hne)]
      exact ih hu.2 hr

theorem GetUrlByAlias_none {s : Storage} {a : String} (h : ∀ r ∈ s.db, r.alias_ ≠ a) :
    GetUrlByAlias s a = (" ", some ERR_URL_NOT_FOUND) := by
  simp only [GetUrlByAlias, queryRowUrl, find_alias_none h]
  rfl

theorem GetUrlByAlias_of_find {s : Storage} {a : String} {r : Row}
    (h : s.db.find? (fun x => x.alias_ == a) = some r) : GetUrlByAlias s a = (r.url, none) := by
  simp only [GetUrlByAlias, queryRowUrl, h]

theorem GetUrlByAlias_of_mem {s : Storage} (hu : AliasUnique s) {r : Row} (hr : r ∈ s.db) :
    GetUrlByAlias s r.alias_ = (r.url, none) :=
  GetUrlByAlias_of_find (find_alias_of_mem hu hr)

theorem DeleteUrl_eq (s : Storage) (a : String) :
    DeleteUrl s a = (⟨s.db.filter (fun r => !(r.alias_ == a))⟩, none) := by
  simp [DeleteUrl, execDelete, errorsIsOpt]

theorem foldl_append_acc (l : List String) (acc : String) :
    l.foldl (fun r x => r ++ x) acc = acc ++ l.foldl (fun r x => r ++ x) "" := by
  induction l generalizing acc with
  | nil => simp
  | cons x xs ih =>
    rw [List.foldl_cons, List.foldl_cons, ih (acc ++ x), ih ("" ++ x), String.empty_append,
      String.append_assoc]

theorem join_cons (x : String) (xs : List String) :
    String.join (x :: xs) = x ++ String.join xs := by
  unfold String.join
  rw [List.foldl_cons, foldl_append_acc, String.empty_append]

theorem GetAll_eq (s : Storage) :
    GetAll s = (String.join (s.db.map fun r => sprintfRow r.id r.url r.alias_), none) := by
  have key : ∀ (rows : List Row) (acc : String),
      rows.foldl (fun result r => result ++ sprintfRow r.id r.url r.alias_) acc =
        acc ++ String.join (rows.map fun r => sprintfRow r.id r.url r.alias_) := by
    intro rows
    induction rows with
    | nil => intro acc; simp [String.join]
    | cons x xs ih =>
      intro acc
      rw [List.foldl_cons, ih, List.map_cons, join_cons, String.append_assoc]
  simp [GetAll, queryAll, key]

/-! ## Invariants of call sequences -/

theorem step_aliasUnique {s : Storage} (h : AliasUnique s) (o : Op) : AliasUnique (step s o).1 := by
  cases o with
  | saveUrl u a =>
    rcases SaveUrl_cases s u a with ⟨e, he, _⟩ | ⟨id, he, hfresh, _, _⟩
    · simpa only [step, he] using h
    · simp only [step, he, AliasUnique, List.map_append, List.map_cons, List.map_nil]
      refine List.Nodup.append h (List.nodup_singleton _) ?_
      intro x hx hx2
      rw [List.mem_singleton] at hx2
      obtain ⟨r, hr, e⟩ := List.mem_map.mp hx
      exact hfresh r hr (e.trans hx2)
  | getUrlByAlias a => exact h
  | deleteUrl a =>
    simp only [step, DeleteUrl_eq, AliasUnique]
    exact List.Nodup.sublist ((List.filter_sublist _).map _) h
  | getAll => exact h

theorem step_idSorted {s : Storage} (h : IdSorted s) (o : Op) : IdSorted (step s o).1 := by
  cases o with
  | saveUrl u a =>
    rcases SaveUrl_cases s u a with ⟨e, he, _⟩ | ⟨id, he, _, hlt, _⟩
    · simpa only [step, he] using h
    · simp only [step, he, IdSorted]
      rw [List.pairwise_append]
      refine ⟨h, List.pairwise_singleton _ _, ?_⟩
      intro x hx y hy
      rw [List.mem_singleton] at hy
      subst hy
      exact hlt x hx
  | getUrlByAlias a => exact h
  | deleteUrl a =>
    simp only [step, DeleteUrl_eq, IdSorted]
    exact List.Pairwise.sublist (List.filter_sublist _) h
  | getAll => exact h

theorem run_aliasUnique {s : Storage} (h : AliasUnique s) (ops : List Op) :
    AliasUnique (run s ops).1 := by
  induction ops generalizing s with
  | nil => exact h
  | cons o os ih => exact ih (step_aliasUnique h o)

theorem run_idSorted {s : Storage} (h : IdSorted s) (ops : List Op) :
    IdSorted (run s ops).1 := by
  induction ops generalizing s with
  | nil => exact h
  | cons o os ih => exact ih (step_idSorted h o)

/-- A run of successful saves appends one row per call, carrying the returned id. -/
theorem saveAll_db (s : Storage) (recs : List (String × String))
    (hok : ∀ x ∈ (saveAll s recs).2, x.2 = none) :
    (saveAll s recs).1.db =
      s.db ++ List.zipWith (fun x p => (⟨x.1, p.2, p.1⟩ : Row)) (saveAll s recs).2 recs := by
  induction recs generalizing s with
  | nil => simp [saveAll]
  | cons p ps ih =>
    obtain ⟨u, a⟩ := p
    simp only [saveAll, List.mem_cons, forall_eq_or_imp] at hok ⊢
    obtain ⟨h1, h2⟩ := hok
    rcases SaveUrl_cases s u a with ⟨e, he, _⟩ | ⟨id, he, _, _, _⟩
    · rw [he] at h1
      simp at h1
    · rw [ih _ h2, he]
      simp

/-! ## The contract of the store -/

/-- C1. Save/Get round trip: on every store whose ids are below the rowid
ceiling, for every url and alias (empty or not) such that no stored record has
that alias, `SaveUrl(url, alias)` returns an id and no error, stores exactly the
record `(id, alias, url)` after the old ones, and `GetUrlByAlias(alias)` on the
resulting store returns exactly `url` with no error. -/
theorem saveUrl_getUrlByAlias_roundtrip (s : Storage) (url alias_ : String)
    (hfresh : ∀ r ∈ s.db, r.alias_ ≠ alias_) (hroom : BelowCeiling s) :
    (SaveUrl s url alias_).2.2 = none ∧
      (SaveUrl s url alias_).1.db = s.db ++ [⟨(SaveUrl s url alias_).2.1, alias_, url⟩] ∧
      GetUrlByAlias (SaveUrl s url alias_).1 alias_ = (url, none) := by
  obtain ⟨id, h, _, _⟩ := SaveUrl_fresh hfresh hroom url
  rw [h]
  refine ⟨rfl, rfl, ?_⟩
  apply GetUrlByAlias_of_find (r := ⟨id, alias_, url⟩)
  show (s.db ++ [(⟨id, alias_, url⟩ : Row)]).find? (fun x => x.alias_ == alias_) = _
  rw [List.find?_append, find_alias_none hfresh]
  simp

/-- C1 on a store holding `ex1`, saving `https://go.dev` under `go`. -/
theorem saveUrl_getUrlByAlias_roundtrip_witness :
    (SaveUrl ⟨[⟨1, "ex1", "https://example.com"⟩]⟩ "https://go.dev" "go").2.2 = none ∧
      (SaveUrl ⟨[⟨1, "ex1", "https://example.com"⟩]⟩ "https://go.dev" "go").1.db =
        [⟨1, "ex1", "https://example.com"⟩] ++
          [⟨(SaveUrl ⟨[⟨1, "ex1", "https://example.com"⟩]⟩ "https://go.dev" "go").2.1,
            "go", "https://go.dev"⟩] ∧
      GetUrlByAlias (SaveUrl ⟨[⟨1, "ex1", "https://example.com"⟩]⟩ "https://go.dev" "go").1 "go" =
        ("https://go.dev", none) :=
  saveUrl_getUrlByAlias_roundtrip ⟨[⟨1, "ex1", "https://example.com"⟩]⟩ "https://go.dev" "go"
    (by decide) (by decide)

/-- C2. A duplicate alias is rejected without overwrite: on every store with
unique aliases holding a record `r`, `SaveUrl(u, r.alias)` returns id 0 and the
error `storage.sqlite.SaveUrl: ` wrapping `ERR_URL_EXISTS`, which `errors.Is`
recognises while it recognises no wrapped engine error as `ERR_URL_EXISTS`; the
store is unchanged and `GetUrlByAlias(r.alias)` still returns `r.url`. -/
theorem saveUrl_duplicate_alias_rejected (s : Storage) (hu : AliasUnique s) (r : Row)
    (hr : r ∈ s.db) (u : String) (code ext : Nat) :
    SaveUrl s u r.alias_ = (s, 0, some (.wrapf "storage.sqlite.SaveUrl: " ERR_URL_EXISTS)) ∧
      errorsIsOpt (SaveUrl s u r.alias_).2.2 ERR_URL_EXISTS = true ∧
      errorsIsOpt (some (.wrapf "storage.sqlite.SaveUrl: " (.sqlite3Error code ext)))
        ERR_URL_EXISTS = false ∧
      GetUrlByAlias (SaveUrl s u r.alias_).1 r.alias_ = (r.url, none) := by
  have h := SaveUrl_dup ⟨r, hr, rfl⟩ u
  rw [h]
  refine ⟨rfl, ?_, ?_, GetUrlByAlias_of_mem hu hr⟩
  · simp [errorsIsOpt, errorsIs, ERR_URL_EXISTS]
  · simp [errorsIsOpt, errorsIs, ERR_URL_EXISTS]

/-- C2 on a store holding `ex1`, saving another url under `ex1`. -/
theorem saveUrl_duplicate_alias_rejected_witness :
    SaveUrl ⟨[⟨1, "ex1", "https://example.com"⟩]⟩ "https://other.com" "ex1" =
        (⟨[⟨1, "ex1", "https://example.com"⟩]⟩, 0,
          some (.wrapf "storage.sqlite.SaveUrl: " ERR_URL_EXISTS)) ∧
      errorsIsOpt (SaveUrl ⟨[⟨1, "ex1", "https://example.com"⟩]⟩ "https://other.com" "ex1").2.2
        ERR_URL_EXISTS = true ∧
      errorsIsOpt (some (.wrapf "storage.sqlite.SaveUrl: " (.sqlite3Error 13 13)))
        ERR_URL_EXISTS = false ∧
      GetUrlByAlias (SaveUrl ⟨[⟨1, "ex1", "https://example.com"⟩]⟩ "https://other.com" "ex1").1
        "ex1" = ("https://example.com", none) :=
  saveUrl_duplicate_alias_rejected ⟨[⟨1, "ex1", "https://example.com"⟩]⟩ (by decide)
    ⟨1, "ex1", "https://example.com"⟩ (by decide) "https://other.com" 13 13

/-- C3. `GetUrlByAlias` is an exact-match point lookup: on every store with
unique aliases it returns `(u, nil)` if and only if a record whose alias equals
the argument exactly and whose url is `u` is stored, and when no record has that
alias it fails with `ERR_URL_NOT_FOUND`. -/
theorem getUrlByAlias_exact_match (s : Storage) (hu : AliasUnique s) (a u : String) :
    (GetUrlByAlias s a = (u, none) ↔ ∃ r ∈ s.db, r.alias_ = a ∧ r.url = u) ∧
      ((∀ r ∈ s.db, r.alias_ ≠ a) → GetUrlByAlias s a = (" ", some ERR_URL_NOT_FOUND)) := by
  refine ⟨⟨?_, ?_⟩, fun h => GetUrlByAlias_none h⟩
  · intro h
    cases hf : s.db.find? (fun x => x.alias_ == a) with
    | none =>
      have hnone : ∀ r ∈ s.db, r.alias_ ≠ a := by
        intro r hr
        simpa using List.find?_eq_none.mp hf r hr
      rw [GetUrlByAlias_none hnone] at h
      simp at h
    | some r =>
      rw [GetUrlByAlias_of_find hf] at h
      have ha : r.alias_ = a := by simpa using List.find?_some hf
      exact ⟨r, List.mem_of_find?_eq_some hf, ha, congrArg Prod.fst h⟩
  · rintro ⟨r, hr, rfl, rfl⟩
    exact GetUrlByAlias_of_mem hu hr

/-- C3 on a store holding `ex1` and `EX1`, two different aliases. -/
theorem getUrlByAlias_exact_match_witness :
    (GetUrlByAlias ⟨[⟨1, "ex1", "https://example.com"⟩, ⟨2, "EX1", "https://go.dev"⟩]⟩ "EX1" =
          ("https://go.dev", none) ↔
        ∃ r ∈ (⟨[⟨1, "ex1", "https://example.com"⟩, ⟨2, "EX1", "https://go.dev"⟩]⟩ : Storage).db,
          r.alias_ = "EX1" ∧ r.url = "https://go.dev") ∧
      ((∀ r ∈ (⟨[⟨1, "ex1", "https://example.com"⟩, ⟨2, "EX1", "https://go.dev"⟩]⟩ : Storage).db,
          r.alias_ ≠ "EX1") →
        GetUrlByAlias ⟨[⟨1, "ex1", "https://example.com"⟩, ⟨2, "EX1", "https://go.dev"⟩]⟩ "EX1" =
          (" ", some ERR_URL_NOT_FOUND)) :=
  getUrlByAlias_exact_match ⟨[⟨1, "ex1", "https://example.com"⟩, ⟨2, "EX1", "https://go.dev"⟩]⟩
    (by decide) "EX1" "https://go.dev"

/-- C4. On a store holding only alias `ex1`, `DeleteUrl("missing")` leaves the
record in place and returns a nil error, not `ERR_URL_NOT_FOUND`: `Exec` never
returns `sql.ErrNoRows`, so the branch that reports it is never taken. -/
theorem deleteUrl_missing_alias_returns_nil :
    DeleteUrl ⟨[⟨1, "ex1", "https://example.com"⟩]⟩ "missing" =
      (⟨[⟨1, "ex1", "https://example.com"⟩]⟩, none) := by
  decide

/-- C5. `DeleteUrl` on an existing alias removes exactly that record: on every
store holding a record with alias `a`, `DeleteUrl(a)` returns no error, the
store shrinks, no record with alias `a` remains, `GetUrlByAlias(a)` then fails
with `ERR_URL_NOT_FOUND`, and a record whose alias differs from `a` is stored
afterwards exactly when it was stored before, id and url included. -/
theorem deleteUrl_removes_exactly_alias (s : Storage) (a : String)
    (h : ∃ r ∈ s.db, r.alias_ = a) (r : Row) :
    (DeleteUrl s a).2 = none ∧
      GetUrlByAlias (DeleteUrl s a).1 a = (" ", some ERR_URL_NOT_FOUND) ∧
      (r.alias_ ≠ a → (r ∈ (DeleteUrl s a).1.db ↔ r ∈ s.db)) ∧
      (r.alias_ = a → r ∉ (DeleteUrl s a).1.db) ∧
      (DeleteUrl s a).1.db.length < s.db.length := by
  rw [DeleteUrl_eq]
  refine ⟨rfl, ?_, ?_, ?_, ?_⟩
  · apply GetUrlByAlias_none
    intro x hx
    simpa using (List.mem_filter.mp hx).2
  · intro hne
    simp [List.mem_filter, hne]
  · intro he
    simp [List.mem_filter, he]
  · obtain ⟨x, hx, hxa⟩ := h
    apply List.length_filter_lt_length_iff_exists.mpr
    exact ⟨x, hx, by simp [hxa]⟩

/-- C5 on a store holding `ex1` and `go`, deleting `ex1`. -/
theorem deleteUrl_removes_exactly_alias_witness :
    (DeleteUrl ⟨[⟨1, "ex1", "https://example.com"⟩, ⟨2, "go", "https://go.dev"⟩]⟩ "ex1").2 = none ∧
      GetUrlByAlias
          (DeleteUrl ⟨[⟨1, "ex1", "https://example.com"⟩, ⟨2, "go", "https://go.dev"⟩]⟩ "ex1").1
          "ex1" = (" ", some ERR_URL_NOT_FOUND) ∧
      ((⟨2, "go", "https://go.dev"⟩ : Row).alias_ ≠ "ex1" →
        ((⟨2, "go", "https://go.dev"⟩ : Row) ∈
            (DeleteUrl ⟨[⟨1, "ex1", "https://example.com"⟩, ⟨2, "go", "https://go.dev"⟩]⟩
              "ex1").1.db ↔
          (⟨2, "go", "https://go.dev"⟩ : Row) ∈
            (⟨[⟨1, "ex1", "https://example.com"⟩, ⟨2, "go", "https://go.dev"⟩]⟩ : Storage).db)) ∧
      ((⟨2, "go", "https://go.dev"⟩ : Row).alias_ = "ex1" →
        (⟨2, "go", "https://go.dev"⟩ : Row) ∉
          (DeleteUrl ⟨[⟨1, "ex1", "https://example.com"⟩, ⟨2, "go", "https://go.dev"⟩]⟩
            "ex1").1.db) ∧
      (DeleteUrl ⟨[⟨1, "ex1", "https://example.com"⟩, ⟨2, "go", "https://go.dev"⟩]⟩
          "ex1").1.db.length <
        (⟨[⟨1, "ex1", "https://example.com"⟩, ⟨2, "go", "https://go.dev"⟩]⟩ : Storage).db.length :=
  deleteUrl_removes_exactly_alias
    ⟨[⟨1, "ex1", "https://example.com"⟩, ⟨2, "go", "https://go.dev"⟩]⟩ "ex1"
    ⟨⟨1, "ex1", "https://example.com"⟩, by decide, by decide⟩ ⟨2, "go", "https://go.dev"⟩

/-- C6, as the spec words it, fails: after `SaveUrl(_, "a")` returned id 1 and
`DeleteUrl("a")` removed that record, `SaveUrl(_, "b")` returns id 1 again. -/
theorem saveUrl_reuses_deleted_id :
    (run New [.saveUrl "https://example.com" "a", .deleteUrl "a",
        .saveUrl "https://example.com" "b"]).2 =
      [.saveUrl 1 none, .deleteUrl none, .saveUrl 1 none] := by
  decide

/-- C6, amended. After every sequence of calls from the empty store, the id a
successful `SaveUrl` returns is strictly greater than the id of every record
stored at that moment: it is 1 on an empty table and otherwise one more than
the largest stored id, and the stored ids stay strictly increasing in insertion
order.  Nothing is said about ids of deleted records.  (A modelled call that
succeeds found the largest stored id below `MAX_ROWID`.) -/
theorem saveUrl_id_above_stored_ids (ops : List Op) (url alias_ : String)
    (hok : (SaveUrl (run New ops).1 url alias_).2.2 = none) :
    (∀ r ∈ (run New ops).1.db, r.id < (SaveUrl (run New ops).1 url alias_).2.1) ∧
      (((run New ops).1.db = [] ∧ (SaveUrl (run New ops).1 url alias_).2.1 = 1) ∨
        ((∃ r ∈ (run New ops).1.db, (SaveUrl (run New ops).1 url alias_).2.1 = r.id + 1))) ∧
      IdSorted (SaveUrl (run New ops).1 url alias_).1 := by
  have hsorted : IdSorted (step (run New ops).1 (.saveUrl url alias_)).1 :=
    step_idSorted (run_idSorted (by simp [IdSorted, New]) ops) _
  rcases SaveUrl_cases (run New ops).1 url alias_ with ⟨e, he, _⟩ | ⟨id, he, _, hlt, hid⟩
  · rw [he] at hok
    simp at hok
  · refine ⟨?_, ?_, hsorted⟩
    · rw [he]
      exact hlt
    · rw [he]
      exact hid

/-- C6, amended, after two saves and the deletion of the first record. -/
theorem saveUrl_id_above_stored_ids_witness :
    (∀ r ∈ (run New [.saveUrl "u1" "a", .saveUrl "u2" "b", .deleteUrl "a"]).1.db,
        r.id < (SaveUrl (run New [.saveUrl "u1" "a", .saveUrl "u2" "b", .deleteUrl "a"]).1
          "u3" "c").2.1) ∧
      (((run New [.saveUrl "u1" "a", .saveUrl "u2" "b", .deleteUrl "a"]).1.db = [] ∧
          (SaveUrl (run New [.saveUrl "u1" "a", .saveUrl "u2" "b", .deleteUrl "a"]).1
            "u3" "c").2.1 = 1) ∨
        ((∃ r ∈ (run New [.saveUrl "u1" "a", .saveUrl "u2" "b", .deleteUrl "a"]).1.db,
          (SaveUrl (run New [.saveUrl "u1" "a", .saveUrl "u2" "b", .deleteUrl "a"]).1
            "u3" "c").2.1 = r.id + 1))) ∧
      IdSorted (SaveUrl (run New [.saveUrl "u1" "a", .saveUrl "u2" "b", .deleteUrl "a"]).1
        "u3" "c").1 :=
  saveUrl_id_above_stored_ids [.saveUrl "u1" "a", .saveUrl "u2" "b", .deleteUrl "a"] "u3" "c"
    (by decide)

/-- C7, as the spec words it, fails: on the empty store `SaveUrl("", "")`
returns id 1 and no error and stores a record whose alias and url are empty. -/
theorem saveUrl_accepts_empty_strings :
    SaveUrl New "" "" = (⟨[⟨1, "", ""⟩]⟩, 1, none) := by
  decide

/-- C7, amended. `SaveUrl` checks alias uniqueness only, not emptiness: on
every store whose ids are below the rowid ceiling, `SaveUrl(url, alias)`, with
either string empty or not, fails exactly when a stored record already has that
alias; a failing call inserts nothing and a successful call appends exactly the
record holding the given alias and url. -/
theorem saveUrl_checks_alias_only (s : Storage) (hroom : BelowCeiling s) (url alias_ : String) :
    ((SaveUrl s url alias_).2.2 ≠ none ↔ ∃ r ∈ s.db, r.alias_ = alias_) ∧
      ((SaveUrl s url alias_).2.2 ≠ none → (SaveUrl s url alias_).1 = s) ∧
      ((SaveUrl s url alias_).2.2 = none →
        (SaveUrl s url alias_).1.db = s.db ++ [⟨(SaveUrl s url alias_).2.1, alias_, url⟩]) := by
  rcases SaveUrl_cases s url alias_ with ⟨e, he, hwhy⟩ | ⟨id, he, hfresh, _, _⟩
  · rw [he]
    refine ⟨⟨fun _ => ?_, fun _ => by simp⟩, fun _ => rfl, fun h => by simp at h⟩
    rcases hwhy with h | ⟨r, hr, hmax⟩
    · exact h
    · have := hroom r hr
      omega
  · rw [he]
    refine ⟨⟨fun h => by simp at h, ?_⟩, fun h => by simp at h, fun _ => rfl⟩
    rintro ⟨r, hr, e⟩
    exact absurd e (hfresh r hr)

/-- C7, amended, on a store holding `ex1`, saving the empty url under the empty alias. -/
theorem saveUrl_checks_alias_only_witness :
    ((SaveUrl ⟨[⟨1, "ex1", "https://example.com"⟩]⟩ "" "").2.2 ≠ none ↔
        ∃ r ∈ (⟨[⟨1, "ex1", "https://example.com"⟩]⟩ : Storage).db, r.alias_ = "") ∧
      ((SaveUrl ⟨[⟨1, "ex1", "https://example.com"⟩]⟩ "" "").2.2 ≠ none →
        (SaveUrl ⟨[⟨1, "ex1", "https://example.com"⟩]⟩ "" "").1 =
          ⟨[⟨1, "ex1", "https://example.com"⟩]⟩) ∧
      ((SaveUrl ⟨[⟨1, "ex1", "https://example.com"⟩]⟩ "" "").2.2 = none →
        (SaveUrl ⟨[⟨1, "ex1", "https://example.com"⟩]⟩ "" "").1.db =
          (⟨[⟨1, "ex1", "https://example.com"⟩]⟩ : Storage).db ++
            [⟨(SaveUrl ⟨[⟨1, "ex1", "https://example.com"⟩]⟩ "" "").2.1, "", ""⟩]) :=
  saveUrl_checks_alias_only ⟨[⟨1, "ex1", "https://example.com"⟩]⟩ (by decide) "" ""

/-- Saves of pairwise distinct aliases into a store that holds none of them and
has room for them all succeed. -/
theorem saveAll_ok (s : Storage) (recs : List (String × String)) (k : Int)
    (hk : ∀ r ∈ s.db, r.id ≤ k) (h0 : 0 ≤ k) (hlen : k + recs.length < MAX_ROWID)
    (hnd : (recs.map Prod.snd).Nodup) (hdisj : ∀ r ∈ s.db, r.alias_ ∉ recs.map Prod.snd) :
    ∀ x ∈ (saveAll s recs).2, x.2 = none := by
  induction recs generalizing s k with
  | nil => simp [saveAll]
  | cons p ps ih =>
    obtain ⟨u, a⟩ := p
    rw [List.map_cons, List.nodup_cons] at hnd
    have hfresh : ∀ r ∈ s.db, r.alias_ ≠ a := by
      intro r hr e
      exact hdisj r hr (by simp [e])
    have hroom : ∀ r ∈ s.db, r.id < MAX_ROWID := by
      intro r hr
      have := hk r hr
      simp only [List.length_cons] at hlen
      omega
    obtain ⟨id, he, _, hid⟩ := SaveUrl_fresh hfresh hroom u
    have hidle : id ≤ k + 1 := by
      rcases hid with ⟨_, h1⟩ | ⟨r, hr, h1⟩
      · omega
      · have := hk r hr
        omega
    simp only [saveAll, he, List.mem_cons, forall_eq_or_imp, true_and]
    apply ih _ (k + 1)
    · intro r hr
      rcases List.mem_append.mp hr with hr | hr
      · have := hk r hr
        omega
      · rw [List.mem_singleton] at hr
        subst hr
        exact hidle
    · omega
    · simp only [List.length_cons] at hlen
      push_cast at hlen
      omega
    · exact hnd.2
    · intro r hr
      rcases List.mem_append.mp hr with hr | hr
      · intro hmem
        exact hdisj r hr (List.mem_cons_of_mem _ hmem)
      · rw [List.mem_singleton] at hr
        subst hr
        exact hnd.1

/-- Fewer than `2^63 - 1` saves of pairwise distinct aliases into the empty store
all succeed. -/
theorem saveAll_New_ok (recs : List (String × String)) (hnd : (recs.map Prod.snd).Nodup)
    (hlen : (recs.length : Int) < MAX_ROWID) : ∀ x ∈ (saveAll New recs).2, x.2 = none :=
  saveAll_ok New recs 0 (by simp [New]) (le_refl 0) (by omega) hnd (by simp [New])

theorem saveAll_length (s : Storage) (recs : List (String × String)) :
    (saveAll s recs).2.length = recs.length := by
  induction recs generalizing s with
  | nil => rfl
  | cons p ps ih =>
    obtain ⟨u, a⟩ := p
    simp [saveAll, ih]

/-- C8. `GetAll` lists exactly the stored records: after every sequence of
successful saves into the empty store, `GetAll` returns no error and the
concatenation, over the rows it scans, of the entries
`{id: <id>, url: <url>, alias: <alias>}, ` written out character for character
with the id in decimal; the rows scanned are, up to order, the saved urls and
aliases with the ids the saves returned, one row per save; on the empty store it
returns the empty string and no error. -/
theorem getAll_lists_saved_records (recs : List (String × String))
    (hok : ∀ x ∈ (saveAll New recs).2, x.2 = none) :
    (queryAll (saveAll New recs).1.db).Perm
        (List.zipWith (fun x p => (⟨x.1, p.2, p.1⟩ : Row)) (saveAll New recs).2 recs) ∧
      (saveAll New recs).2.length = recs.length ∧
      GetAll (saveAll New recs).1 =
        (String.join ((queryAll (saveAll New recs).1.db).map fun r =>
          "\x7bid: " ++ toString r.id ++ ", url: " ++ r.url ++ ", alias: " ++ r.alias_ ++ "\x7d, "),
          none) ∧
      GetAll New = ("", none) := by
  refine ⟨?_, saveAll_length _ _, GetAll_eq _, rfl⟩
  rw [queryAll, saveAll_db New recs hok]
  simp [New]

/-- C8 for the two records `ex1` and `go`, with the string `GetAll` returns for
them spelled out. -/
theorem getAll_lists_saved_records_witness :
    ((queryAll (saveAll New [("https://example.com", "ex1"), ("https://go.dev", "go")]).1.db).Perm
        (List.zipWith (fun x p => (⟨x.1, p.2, p.1⟩ : Row))
          (saveAll New [("https://example.com", "ex1"), ("https://go.dev", "go")]).2
          [("https://example.com", "ex1"), ("https://go.dev", "go")]) ∧
      (saveAll New [("https://example.com", "ex1"), ("https://go.dev", "go")]).2.length =
        [("https://example.com", "ex1"), ("https://go.dev", "go")].length ∧
      GetAll (saveAll New [("https://example.com", "ex1"), ("https://go.dev", "go")]).1 =
        (String.join
          ((queryAll (saveAll New [("https://example.com", "ex1"), ("https://go.dev", "go")]).1.db).map
            fun r =>
              "\x7bid: " ++ toString r.id ++ ", url: " ++ r.url ++ ", alias: " ++ r.alias_ ++
                "\x7d, "), none) ∧
      GetAll New = ("", none)) ∧
      GetAll (saveAll New [("https://example.com", "ex1"), ("https://go.dev", "go")]).1 =
        ("\x7bid: 1, url: https://example.com, alias: ex1\x7d, " ++
          "\x7bid: 2, url: https://go.dev, alias: go\x7d, ", none) :=
  ⟨getAll_lists_saved_records [("https://example.com", "ex1"), ("https://go.dev", "go")]
    (by decide), by decide⟩

/-- C9. The scenario on a freshly initialised store: `SaveUrl` of
`https://example.com` under `ex1` returns id 1 and no error, `GetUrlByAlias` of
`ex1` returns that url, a second `SaveUrl` under `ex1` returns id 0 and an error
wrapping `ERR_URL_EXISTS`, `DeleteUrl` of `ex1` returns no error, and
`GetUrlByAlias` of `ex1` then fails with `ERR_URL_NOT_FOUND`. -/
theorem scenario_ex1 :
    (run New [.saveUrl "https://example.com" "ex1", .getUrlByAlias "ex1",
        .saveUrl "https://other.com" "ex1", .deleteUrl "ex1", .getUrlByAlias "ex1"]).2 =
      [.saveUrl 1 none, .getUrlByAlias "https://example.com" none,
        .saveUrl 0 (some (.wrapf "storage.sqlite.SaveUrl: " ERR_URL_EXISTS)),
        .deleteUrl none, .getUrlByAlias " " (some ERR_URL_NOT_FOUND)] ∧
      errorsIs (.wrapf "storage.sqlite.SaveUrl: " ERR_URL_EXISTS) ERR_URL_EXISTS = true := by
  decide

/-- C10. Alias uniqueness is an invariant of reachable states: after every
sequence of `SaveUrl`, `GetUrlByAlias`, `DeleteUrl` and `GetAll` calls from the
empty store, with any arguments, no two stored records share an alias; and a
call of `GetUrlByAlias` or `GetAll` leaves the store as it was. -/
theorem alias_unique_in_reachable_states (ops : List Op) (s : Storage) (a : String) :
    AliasUnique (run New ops).1 ∧
      (step s (.getUrlByAlias a)).1 = s ∧ (step s .getAll).1 = s :=
  ⟨run_aliasUnique (by simp [AliasUnique, New]) ops, rfl, rfl⟩

end UrlShortener
